import Mathlib

/-!
Verification of the gantt-plan timeline engine (src/src/App.tsx).

The file shallowly embeds the computational core of the application:
dates are absolute instants in integer milliseconds, tasks are records,
pixel arithmetic is exact rational arithmetic, and the stateful React
handlers are modelled as pure functions of their inputs.  Every
definition is translated from the TypeScript source; spec-level
re-formulations used for refinement statements are clearly marked.
-/

namespace Gantt

/-- A canonical task (App.tsx, `allTasks`, lines 206-219): identifier,
resource (machine), start instant and end instant in epoch milliseconds,
optional quantity. -/
structure Task where
  id : String
  resource : String
  start : Int
  «end» : Int
  qty : Option Int
deriving DecidableEq, Repr

/-- The fixed lane-reuse tolerance `EPS = 60_000` ms (App.tsx line 102). -/
def EPS : Int := 60000

/-- One step of the inner loop of `packLanes` (App.tsx lines 105-108):
scan the lane end times in index order and return the first index `i`
with `t.start >= laneEnds[i] - EPS`. -/
def findLane (laneEnds : List Int) (s : Int) : Option Nat :=
  match laneEnds with
  | [] => none
  | e :: rest => if e - EPS ≤ s then some 0 else (findLane rest s).map (· + 1)

/-- A task annotated with its assigned lane (`{ ...t, lane }`, App.tsx
line 111). -/
structure Placed where
  task : Task
  lane : Nat
deriving DecidableEq, Repr

/-- The loop of `packLanes` (App.tsx lines 104-112) over the already
sorted task list, threading the `laneEnds` array: a found lane gets its
end time overwritten with the task's end, otherwise a new lane is
opened at the end of the array. -/
def packLanesGo (laneEnds : List Int) : List Task → List Placed × List Int
  | [] => ([], laneEnds)
  | t :: ts =>
    match findLane laneEnds t.start with
    | some i =>
      let r := packLanesGo (laneEnds.set i t.«end») ts
      (⟨t, i⟩ :: r.1, r.2)
    | none =>
      let r := packLanesGo (laneEnds ++ [t.«end»]) ts
      (⟨t, laneEnds.length⟩ :: r.1, r.2)

/-- The sort `[...tasks].sort((a, b) => +a.start - +b.start)` (App.tsx
line 103).  JavaScript `Array.prototype.sort` is stable, and a stable
sort by a total preorder has a unique result, so the stable insertion
sort by `start` is an exact model. -/
def sortByStart (l : List Task) : List Task :=
  List.insertionSort (fun a b => a.start ≤ b.start) l

/-- Lane packing (App.tsx lines 99-114): sort by start, assign each task
the first lane whose end time is at most `start + EPS`, and report
`laneEnds.length || 1` as the lane count. -/
def packLanes (tasks : List Task) : List Placed × Nat :=
  let r := packLanesGo [] (sortByStart tasks)
  (r.1, max r.2.length 1)

/-- The time-to-pixel mapping of the coordinate mapper: bar left edges
and the zoom anchor use `(instant - min) * pxPerMs` with
`pxPerMs = scale / 3_600_000` (App.tsx lines 172-173, 267, 573).
Arithmetic is modelled exactly over the rationals. -/
def timeToPixel (origin scale t : ℚ) : ℚ :=
  (t - origin) * scale / 3600000

/-- The pixel-to-time mapping: `anchorTime = min + x / pxPerMsCurrent`
(App.tsx lines 164-165), i.e. `origin + x * 3_600_000 / scale`. -/
def pixelToTime (origin scale x : ℚ) : ℚ :=
  origin + x * 3600000 / scale

/-- The scale clamp `Math.max(30, Math.min(300, n))` (App.tsx line 169). -/
def clampScale (n : Int) : Int :=
  max 30 (min 300 n)

/-- JavaScript `Math.round`, which rounds half-way cases toward positive
infinity, exactly as Mathlib's `round` does. -/
def jsRound (q : ℚ) : Int :=
  round q

/-- The multiplicative zoom step `e.deltaY > 0 ? 0.9 : 1.1` (App.tsx
line 168). -/
def wheelFactor (zoomOut : Bool) : ℚ :=
  if zoomOut then 9 / 10 else 11 / 10

/-- The CTRL+wheel zoom handler (App.tsx lines 154-178), modelled as a
pure function of the domain minimum, the cursor position relative to the
viewport (`xRel`), the current scroll offset, the current scale and the
wheel direction.  `none` models the early `return` when the clamped new
scale equals the old one (neither scale nor scroll is touched);
otherwise the result is the new scale together with the emitted
`scrollLeft`. -/
def handleWheel (domainMin xRel scrollLeft : ℚ) (pxPerHour : Int) (zoomOut : Bool) :
    Option (Int × ℚ) :=
  let x := xRel + scrollLeft
  let pxPerMsCurrent : ℚ := (if pxPerHour = 0 then 1 else (pxPerHour : ℚ)) / 3600000
  let anchorTime := domainMin + x / pxPerMsCurrent
  let next := clampScale (jsRound ((pxPerHour : ℚ) * wheelFactor zoomOut))
  if next = pxPerHour then none
  else
    let anchorXNext := (anchorTime - domainMin) * ((next : ℚ) / 3600000)
    some (next, max 0 (anchorXNext - xRel))

/-- The clamped next scale of one wheel step:
`Math.max(30, Math.min(300, Math.round(pxPerHour * factor)))` (App.tsx
lines 168-169). -/
def nextScale (p : Int) (zoomOut : Bool) : Int :=
  clampScale (jsRound ((p : ℚ) * wheelFactor zoomOut))

/-- The content pixel, at scale `next`, of the anchor instant read off
at scale `p` under absolute content pixel `x` — the composition the
zoom handler computes in `anchorTime`/`anchorXNext` (App.tsx lines
165 and 173). -/
def anchorPixel (domainMin x : ℚ) (p next : Int) : ℚ :=
  timeToPixel domainMin (next : ℚ) (pixelToTime domainMin (p : ℚ) x)

/-- The one-hour margin added on each side of the domain (App.tsx
line 317). -/
def addMargin (mm : Int × Int) : Int × Int :=
  (mm.1 - 3600000, mm.2 + 3600000)

/-- The time-axis domain `computedMinMax` (App.tsx lines 316-329) as a
pure function of the visible (filtered) tasks, the full task list, the
optional window bounds and the current clock value in epoch ms. -/
def computedMinMax (filtered allTasks : List Task) (timeFrom timeTo : Option Int)
    (now : Int) : Int × Int :=
  let src := if filtered ≠ [] then filtered else allTasks
  match src with
  | [] =>
    let baseFrom := match timeFrom with | some f => f | none => now - 12 * 3600000
    let baseTo := match timeTo with | some b => b | none => now + 12 * 3600000
    (baseFrom, baseTo)
  | t0 :: rest =>
    let mn := (t0 :: rest).foldl (fun m t => min m t.start) t0.start
    let mx := (t0 :: rest).foldl (fun m t => max m t.«end») t0.«end»
    let mn2 := match timeFrom with | some f => min mn f | none => mn
    let mx2 := match timeTo with | some b => max mx b | none => mx
    addMargin (mn2, mx2)

/-- Spec-level description of the domain, following the spec's wording
amended to what the code computes: minimum start and maximum end over
the visible task set when non-empty, otherwise over all tasks; expanded
by explicit window bounds; padded one hour each side; the now-based
default (adjusted by window bounds, unpadded) only when the chosen set
is empty. -/
def domainSpec (filtered allTasks : List Task) (timeFrom timeTo : Option Int)
    (now : Int) : Int × Int :=
  let eff := if filtered ≠ [] then filtered else allTasks
  if eff = [] then
    (timeFrom.getD (now - 12 * 3600000), timeTo.getD (now + 12 * 3600000))
  else
    let mn := ((eff.map Task.start).min?).getD 0
    let mx := ((eff.map Task.«end»).max?).getD 0
    let mn2 := match timeFrom with | some f => min mn f | none => mn
    let mx2 := match timeTo with | some b => max mx b | none => mx
    (mn2 - 3600000, mx2 + 3600000)

/-- The window predicate `intersects` of the view filter (App.tsx lines
246-250): a task is dropped when it ends at or before `timeFrom`, or
starts at or after `timeTo`; an unset bound imposes nothing. -/
def intersects (timeFrom timeTo : Option Int) (t : Task) : Bool :=
  if timeFrom.any (fun f => decide (t.«end» ≤ f)) then false
  else if timeTo.any (fun b => decide (b ≤ t.start)) then false
  else true

/-- JavaScript `String.prototype.toLowerCase` as it acts on identifier
text: per-character lowercasing. -/
def jsLower (s : String) : List Char :=
  s.toList.map Char.toLower

/-- JavaScript `String.prototype.trim`: strip whitespace from both
ends. -/
def jsTrim (s : String) : List Char :=
  ((s.toList.dropWhile Char.isWhitespace).reverse.dropWhile Char.isWhitespace).reverse

/-- Route detection `routeTasks` (App.tsx lines 235-242): trim the
query; when non-empty, case-insensitive exact identifier matches win;
only when there are none, case-insensitive substring matches are used;
either result is sorted ascending by start. -/
def routeTasks (allTasks : List Task) (query : String) : List Task :=
  let q := jsTrim query
  if q = [] then []
  else
    let exact := allTasks.filter (fun t => decide (jsLower t.id = q.map Char.toLower))
    if exact ≠ [] then sortByStart exact
    else sortByStart (allTasks.filter (fun t => decide (q.map Char.toLower <:+: jsLower t.id)))

/-- The view filter `filtered` (App.tsx lines 245-261): the route has
priority over the full list, then the machine multi-select, then (when
no route matched and a query is present) the substring filter on the
identifier, and finally the time window. -/
def filteredView (allTasks : List Task) (query : String) (selectedMachines : List String)
    (timeFrom timeTo : Option Int) : List Task :=
  let route := routeTasks allTasks query
  let base0 := if route ≠ [] then route else allTasks
  let base1 :=
    if selectedMachines ≠ [] then
      base0.filter (fun t => selectedMachines.contains t.resource)
    else base0
  let base2 :=
    if route = [] ∧ query ≠ "" then
      base1.filter (fun t => decide (query.toList.map Char.toLower <:+: jsLower t.id))
    else base1
  base2.filter (intersects timeFrom timeTo)

/-- Bar width in pixels (App.tsx lines 277 and 574): duration times
`pxPerMs`, floored at 4 px. -/
def barWidth (pxPerMs : ℚ) (t : Task) : ℚ :=
  max 4 (((t.«end» : ℚ) - (t.start : ℚ)) * pxPerMs)

/-- Bar height from pixel width (App.tsx line 278, `baseLane = 26` at
line 264): `w > 220 ? 40 : w > 120 ? 32 : baseLane` with strict
comparisons. -/
def barHeight (w : ℚ) : Nat :=
  if 220 < w then 40 else if 120 < w then 32 else 26

/-- Numeric branch of `toDate` (App.tsx lines 43-46): values below
10,000,000,000 are epoch seconds (scaled by 1000), larger values are
epoch milliseconds; the result is the instant in epoch ms. -/
def toDateNum (v : Int) : Int :=
  if v < 10000000000 then v * 1000 else v

/-- A parsed local (wall-clock) date and time, the observable content of
a JavaScript `Date` produced from a local-time string. -/
structure Civil where
  year : Nat
  month : Nat
  day : Nat
  hour : Nat
  minute : Nat
deriving DecidableEq, Repr

/-- Numeric value of an ASCII digit character. -/
def digitVal (c : Char) : Nat :=
  c.toNat - 48

/-- Read exactly `n` ASCII digits from the front of the character list,
accumulating their value. -/
def readFixedAux : Nat → Nat → List Char → Option (Nat × List Char)
  | 0, acc, cs => some (acc, cs)
  | n + 1, acc, c :: cs =>
    if c.isDigit then readFixedAux n (acc * 10 + digitVal c) cs else none
  | _ + 1, _, [] => none

/-- Read exactly `n` ASCII digits. -/
def readFixed (n : Nat) (cs : List Char) : Option (Nat × List Char) :=
  readFixedAux n 0 cs

/-- Read one or two ASCII digits, greedily. -/
def read1or2 (cs : List Char) : Option (Nat × List Char) :=
  match cs with
  | c :: d :: rest =>
    if c.isDigit then
      if d.isDigit then some (digitVal c * 10 + digitVal d, rest)
      else some (digitVal c, d :: rest)
    else none
  | [c] => if c.isDigit then some (digitVal c, []) else none
  | [] => none

/-- Gregorian leap-year rule. -/
def isLeap (y : Nat) : Bool :=
  y % 4 == 0 && (y % 100 != 0 || y % 400 == 0)

/-- Days in a Gregorian month. -/
def daysInMonth (y m : Nat) : Nat :=
  if m = 2 then (if isLeap y then 29 else 28)
  else if m = 4 ∨ m = 6 ∨ m = 9 ∨ m = 11 then 30
  else 31

/-- Calendar validity of a parsed date-time. -/
def validCivil (c : Civil) : Bool :=
  decide (1 ≤ c.month) && decide (c.month ≤ 12) &&
  decide (1 ≤ c.day) && decide (c.day ≤ daysInMonth c.year c.month) &&
  decide (c.hour ≤ 23) && decide (c.minute ≤ 59)

/-- The host's generic `new Date(string)` parse (App.tsx line 48) as the
dominant JavaScript engines (V8 in Chrome and Node, JavaScriptCore)
implement it on dotted numeric dates: `"A.B.YYYY"`, optionally followed
by `" H:mm"`, is read month-first, so `A` is the month (valid 1-12) and
`B` the day, in the local time zone.  String shapes outside this family
are not needed by the development and are conservatively mapped to
`none`. -/
def jsNewDateDotted (s : String) : Option Civil := do
  let cs := s.toList
  let (m, r1) ← read1or2 cs
  match r1 with
  | '.' :: r2 =>
    let (d, r3) ← read1or2 r2
    match r3 with
    | '.' :: r4 =>
      let (y, r5) ← readFixed 4 r4
      match r5 with
      | [] =>
        let c : Civil := ⟨y, m, d, 0, 0⟩
        if validCivil c then some c else none
      | ' ' :: r6 =>
        let (h, r7) ← read1or2 r6
        match r7 with
        | ':' :: r8 =>
          let (mi, r9) ← readFixed 2 r8
          if r9 = [] then
            let c : Civil := ⟨y, m, d, h, mi⟩
            if validCivil c then some c else none
          else none
        | _ => none
      | _ => none
    | _ => none
  | _ => none

/-- Parse tokens of the date-fns format strings used in `toDate`
(App.tsx lines 50-60): two-digit day `dd`, two-digit month `MM`,
four-digit year `yyyy`, two-digit hour `HH`, one-or-two-digit hour `H`,
two-digit minute `mm`, and literal separator characters. -/
inductive FTok where
  | dday2
  | mon2
  | year4
  | hour2
  | hour12
  | min2
  | lit (c : Char)
deriving DecidableEq, Repr

/-- The ordered format list of `toDate` (App.tsx lines 50-60). -/
def fmts : List (List FTok) :=
  [ [.dday2, .lit '.', .mon2, .lit '.', .year4, .lit ' ', .hour2, .lit ':', .min2],
    [.dday2, .lit '.', .mon2, .lit '.', .year4, .lit ' ', .hour12, .lit ':', .min2],
    [.dday2, .lit '.', .mon2, .lit '.', .year4],
    [.year4, .lit '-', .mon2, .lit '-', .dday2, .lit ' ', .hour2, .lit ':', .min2],
    [.year4, .lit '-', .mon2, .lit '-', .dday2, .lit ' ', .hour12, .lit ':', .min2],
    [.year4, .lit '/', .mon2, .lit '/', .dday2, .lit ' ', .hour2, .lit ':', .min2],
    [.year4, .lit '/', .mon2, .lit '/', .dday2],
    [.dday2, .lit '/', .mon2, .lit '/', .year4, .lit ' ', .hour2, .lit ':', .min2],
    [.dday2, .lit '/', .mon2, .lit '/', .year4] ]

/-- Run one format against the characters, date-fns style: tokens match
in order, the whole string must be consumed, unparsed time fields stay
at their zeroed defaults. -/
def runFmt : List FTok → List Char → Civil → Option Civil
  | [], [], acc => some acc
  | [], _ :: _, _ => none
  | .dday2 :: ts, cs, acc => do
    let (d, r) ← readFixed 2 cs
    runFmt ts r { acc with day := d }
  | .mon2 :: ts, cs, acc => do
    let (m, r) ← readFixed 2 cs
    runFmt ts r { acc with month := m }
  | .year4 :: ts, cs, acc => do
    let (y, r) ← readFixed 4 cs
    runFmt ts r { acc with year := y }
  | .hour2 :: ts, cs, acc => do
    let (h, r) ← readFixed 2 cs
    runFmt ts r { acc with hour := h }
  | .hour12 :: ts, cs, acc => do
    let (h, r) ← read1or2 cs
    runFmt ts r { acc with hour := h }
  | .min2 :: ts, cs, acc => do
    let (mi, r) ← readFixed 2 cs
    runFmt ts r { acc with minute := mi }
  | .lit c :: ts, d :: cs, acc => if c = d then runFmt ts cs acc else none
  | .lit _ :: _, [], _ => none

/-- Parse a string with one date-fns format and validate the result, as
`parseDateFns` followed by `isValid` does (App.tsx lines 62-63). -/
def parseWithFmt (f : List FTok) (s : String) : Option Civil := do
  let c ← runFmt f s.toList ⟨0, 0, 0, 0, 0⟩
  if validCivil c then some c else none

/-- Try the format list in order; the first valid result wins (App.tsx
lines 61-64). -/
def tryFmts : List (List FTok) → String → Option Civil
  | [], _ => none
  | f :: fs, s =>
    match parseWithFmt f s with
    | some c => some c
    | none => tryFmts fs s

/-- String branch of `toDate` (App.tsx lines 47-65): the generic engine
parse runs first and wins when it yields a valid date; only on failure
does the explicit format list run. -/
def toDateStr (s : String) : Option Civil :=
  match jsNewDateDotted s with
  | some d => some d
  | none => tryFmts fmts s

end Gantt

namespace Gantt

theorem findLane_some_lt (laneEnds : List Int) (s : Int) :
    ∀ i : Nat, findLane laneEnds s = some i → i < laneEnds.length := by
  induction laneEnds with
  | nil => intro i h; simp [findLane] at h
  | cons e rest ih =>
    intro i h
    by_cases hc : e - EPS ≤ s
    · simp [findLane, hc] at h
      simp only [List.length_cons]
      omega
    · simp [findLane, hc] at h
      obtain ⟨j, hj, rfl⟩ := h
      have := ih j hj
      simp only [List.length_cons]
      omega

theorem findLane_some_le (laneEnds : List Int) (s : Int) :
    ∀ i : Nat, findLane laneEnds s = some i →
      ∀ hi : i < laneEnds.length, laneEnds[i] - EPS ≤ s := by
  induction laneEnds with
  | nil => intro i h; simp [findLane] at h
  | cons e rest ih =>
    intro i h hi
    by_cases hc : e - EPS ≤ s
    · simp [findLane, hc] at h
      subst h
      simpa using hc
    · simp [findLane, hc] at h
      obtain ⟨j, hj, rfl⟩ := h
      have hjlt := findLane_some_lt rest s j hj
      simpa using ih j hj hjlt

theorem packLanesGo_map_task (rest : List Task) :
    ∀ laneEnds : List Int,
      ((packLanesGo laneEnds rest).1).map Placed.task = rest := by
  induction rest with
  | nil => intro laneEnds; simp [packLanesGo]
  | cons t ts ih =>
    intro laneEnds
    cases h : findLane laneEnds t.start with
    | some i => simp [packLanesGo, h, ih]
    | none => simp [packLanesGo, h, ih]

theorem packLanesGo_len_le (rest : List Task) :
    ∀ laneEnds : List Int,
      laneEnds.length ≤ (packLanesGo laneEnds rest).2.length := by
  induction rest with
  | nil => intro laneEnds; simp [packLanesGo]
  | cons t ts ih =>
    intro laneEnds
    cases h : findLane laneEnds t.start with
    | some i =>
      have := ih (laneEnds.set i t.«end»)
      simpa [packLanesGo, h] using this
    | none =>
      have := ih (laneEnds ++ [t.«end»])
      simp [packLanesGo, h] at this ⊢
      omega

theorem packLanesGo_lane_lt (rest : List Task) :
    ∀ laneEnds : List Int,
      ∀ p ∈ (packLanesGo laneEnds rest).1,
        p.lane < (packLanesGo laneEnds rest).2.length := by
  induction rest with
  | nil => intro laneEnds p hp; simp [packLanesGo] at hp
  | cons t ts ih =>
    intro laneEnds p hp
    cases h : findLane laneEnds t.start with
    | some i =>
      simp [packLanesGo, h] at hp ⊢
      rcases hp with rfl | hp
      · have h1 := findLane_some_lt laneEnds t.start i h
        have h2 := packLanesGo_len_le ts (laneEnds.set i t.«end»)
        simp at h2
        show i < _
        omega
      · exact ih (laneEnds.set i t.«end») p hp
    | none =>
      simp [packLanesGo, h] at hp ⊢
      rcases hp with rfl | hp
      · have h2 := packLanesGo_len_le ts (laneEnds ++ [t.«end»])
        simp at h2
        show laneEnds.length < _
        omega
      · exact ih (laneEnds ++ [t.«end»]) p hp

theorem packLanesGo_lane_lb (rest : List Task) :
    ∀ laneEnds : List Int,
      rest.Pairwise (fun a b => a.start ≤ b.start) →
      ∀ (l : Nat) (hl : l < laneEnds.length),
        ∀ p ∈ (packLanesGo laneEnds rest).1,
          p.lane = l → laneEnds[l] - EPS ≤ p.task.start := by
  induction rest with
  | nil => intro laneEnds _ l hl p hp; simp [packLanesGo] at hp
  | cons t ts ih =>
    intro laneEnds hs l hl p hp hpl
    have hhead := (List.pairwise_cons.mp hs).1
    have htail := (List.pairwise_cons.mp hs).2
    cases h : findLane laneEnds t.start with
    | some i =>
      simp only [packLanesGo, h, List.mem_cons] at hp
      rcases hp with rfl | hp
      · have hil : i = l := hpl
        subst hil
        exact findLane_some_le laneEnds t.start i h hl
      · by_cases hil : i = l
        · subst hil
          have h1 := findLane_some_le laneEnds t.start i h hl
          have hmem : p.task ∈ ts := by
            have hm := packLanesGo_map_task ts (laneEnds.set i t.«end»)
            exact hm ▸ List.mem_map_of_mem Placed.task hp
          have h2 := hhead _ hmem
          omega
        · have hl' : l < (laneEnds.set i t.«end»).length := by simpa using hl
          have hres := ih (laneEnds.set i t.«end») htail l hl' p hp hpl
          rw [List.getElem_set] at hres
          simpa [hil] using hres
    | none =>
      simp only [packLanesGo, h, List.mem_cons] at hp
      rcases hp with rfl | hp
      · exfalso
        have : laneEnds.length = l := hpl
        omega
      · have hl' : l < (laneEnds ++ [t.«end»]).length := by
          simp only [List.length_append, List.length_cons, List.length_nil]
          omega
        have hres := ih (laneEnds ++ [t.«end»]) htail l hl' p hp hpl
        rwa [List.getElem_append_left hl] at hres

theorem packLanesGo_pairwise (rest : List Task) :
    ∀ laneEnds : List Int,
      rest.Pairwise (fun a b => a.start ≤ b.start) →
      ((packLanesGo laneEnds rest).1).Pairwise
        (fun a b => a.lane = b.lane → a.task.«end» - EPS ≤ b.task.start) := by
  induction rest with
  | nil => intro laneEnds _; simp [packLanesGo]
  | cons t ts ih =>
    intro laneEnds hs
    have htail := (List.pairwise_cons.mp hs).2
    cases h : findLane laneEnds t.start with
    | some i =>
      simp only [packLanesGo, h]
      refine List.Pairwise.cons ?_ (ih _ htail)
      intro b hb hlane
      have hi : i < laneEnds.length := findLane_some_lt laneEnds t.start i h
      have hi' : i < (laneEnds.set i t.«end»).length := by simpa using hi
      have hb2 := packLanesGo_lane_lb ts (laneEnds.set i t.«end») htail i hi' b hb
        (by exact hlane.symm ▸ rfl)
      rw [List.getElem_set] at hb2
      simpa using hb2
    | none =>
      simp only [packLanesGo, h]
      refine List.Pairwise.cons ?_ (ih _ htail)
      intro b hb hlane
      have hl' : laneEnds.length < (laneEnds ++ [t.«end»]).length := by
        simp
      have hb2 := packLanesGo_lane_lb ts (laneEnds ++ [t.«end»]) htail laneEnds.length hl' b hb
        (by exact hlane.symm ▸ rfl)
      rw [List.getElem_concat_length laneEnds t.«end» laneEnds.length rfl] at hb2
      exact hb2

theorem sortByStart_sorted (l : List Task) :
    (sortByStart l).Pairwise (fun a b => a.start ≤ b.start) := by
  have h1 : IsTotal Task (fun a b => a.start ≤ b.start) :=
    ⟨fun a b => le_total a.start b.start⟩
  have h2 : IsTrans Task (fun a b => a.start ≤ b.start) :=
    ⟨fun _ _ _ hab hbc => le_trans hab hbc⟩
  exact List.sorted_insertionSort _ l

/-- C1: in the output of lane packing, the placed list is ordered by
ascending start, and any two tasks sharing a lane index satisfy both
readings of the tolerance invariant: the later task starts no earlier
than the earlier task's end minus 60 000 ms, and their intervals overlap
by at most 60 000 ms. -/
theorem packLanes_no_overlap_in_lane (tasks : List Task) :
    ((packLanes tasks).1).Pairwise (fun a b =>
      a.task.start ≤ b.task.start ∧
      (a.lane = b.lane →
        a.task.«end» - 60000 ≤ b.task.start ∧
        min a.task.«end» b.task.«end» - max a.task.start b.task.start ≤ 60000)) := by
  have h1 : ((packLanes tasks).1).Pairwise (fun a b => a.task.start ≤ b.task.start) := by
    have hs := sortByStart_sorted tasks
    have hmap := packLanesGo_map_task (sortByStart tasks) []
    rw [show (packLanes tasks).1 = (packLanesGo [] (sortByStart tasks)).1 from rfl]
    rw [← hmap] at hs
    exact (List.pairwise_map (R := fun a b => a.start ≤ b.start) (f := Placed.task)).mp hs
  have h2 := packLanesGo_pairwise (sortByStart tasks) [] (sortByStart_sorted tasks)
  have h2' : ((packLanes tasks).1).Pairwise
      (fun a b => a.lane = b.lane → a.task.«end» - EPS ≤ b.task.start) := h2
  refine (h1.and h2').imp ?_
  rintro a b ⟨ha, hb⟩
  refine ⟨ha, fun hl => ?_⟩
  have hb' := hb hl
  simp only [EPS] at hb'
  omega

/-- Concrete instantiation of the C1 invariant on a two-task resource. -/
theorem packLanes_no_overlap_in_lane_witness :
    ((packLanes [⟨"a", "M", 0, 50, none⟩, ⟨"b", "M", 100, 200, none⟩]).1).Pairwise (fun a b =>
      a.task.start ≤ b.task.start ∧
      (a.lane = b.lane →
        a.task.«end» - 60000 ≤ b.task.start ∧
        min a.task.«end» b.task.«end» - max a.task.start b.task.start ≤ 60000)) :=
  packLanes_no_overlap_in_lane [⟨"a", "M", 0, 50, none⟩, ⟨"b", "M", 100, 200, none⟩]

/-- C10: lane packing drops and duplicates nothing (the underlying tasks
of the placed list are a permutation of the input), every lane index is
below the reported lane count, and the lane count is at least one even
on empty input. -/
theorem packLanes_partition (tasks : List Task) :
    ((packLanes tasks).1.map Placed.task).Perm tasks ∧
    (∀ p ∈ (packLanes tasks).1, p.lane < (packLanes tasks).2) ∧
    1 ≤ (packLanes tasks).2 := by
  refine ⟨?_, ?_, ?_⟩
  · rw [show (packLanes tasks).1 = (packLanesGo [] (sortByStart tasks)).1 from rfl,
      packLanesGo_map_task]
    exact List.perm_insertionSort _ tasks
  · intro p hp
    have h1 := packLanesGo_lane_lt (sortByStart tasks) [] p hp
    exact lt_of_lt_of_le h1 (le_max_left _ _)
  · exact le_max_right _ 1

/-- Concrete instantiation of the C10 structure theorem. -/
theorem packLanes_partition_witness :
    ((packLanes [⟨"a", "M", 0, 50, none⟩, ⟨"b", "M", 40, 90, none⟩]).1.map Placed.task).Perm
        [⟨"a", "M", 0, 50, none⟩, ⟨"b", "M", 40, 90, none⟩] ∧
    (∀ p ∈ (packLanes [⟨"a", "M", 0, 50, none⟩, ⟨"b", "M", 40, 90, none⟩]).1,
      p.lane < (packLanes [⟨"a", "M", 0, 50, none⟩, ⟨"b", "M", 40, 90, none⟩]).2) ∧
    1 ≤ (packLanes [⟨"a", "M", 0, 50, none⟩, ⟨"b", "M", 40, 90, none⟩]).2 :=
  packLanes_partition [⟨"a", "M", 0, 50, none⟩, ⟨"b", "M", 40, 90, none⟩]

/-- C9: for any scale in the clamp range and any domain origin, the
time-to-pixel map and its pixel-to-time inverse compose to the identity
in both directions, exactly over rational arithmetic. -/
theorem timeToPixel_pixelToTime_id (origin scale t x : ℚ)
    (h30 : 30 ≤ scale) (_h300 : scale ≤ 300) :
    pixelToTime origin scale (timeToPixel origin scale t) = t ∧
    timeToPixel origin scale (pixelToTime origin scale x) = x := by
  have hs : scale ≠ 0 := by
    have : (0:ℚ) < scale := lt_of_lt_of_le (by norm_num) h30
    exact ne_of_gt this
  constructor
  · unfold pixelToTime timeToPixel
    field_simp
  · unfold pixelToTime timeToPixel
    field_simp
    ring

/-- Concrete instantiation of the C9 round-trip identity. -/
theorem timeToPixel_pixelToTime_id_witness :
    ((30:ℚ) ≤ 45 ∧ (45:ℚ) ≤ 300) ∧
    (pixelToTime 7 45 (timeToPixel 7 45 123456) = 123456 ∧
      timeToPixel 7 45 (pixelToTime 7 45 789) = 789) :=
  ⟨by norm_num, timeToPixel_pixelToTime_id 7 45 123456 789 (by norm_num) (by norm_num)⟩

/-- C3: one zoom step at cursor position `xRel`, scroll `s`, scale `p`
in the clamp range: the new scale is `round(p * factor)` clamped to
[30, 300]; when it equals the old scale the handler is a no-op, and
otherwise it emits scroll `(pixel of the anchor instant at the new
scale) - xRel` floored at zero, so the anchor instant maps back to the
viewport pixel `xRel` exactly whenever the floor does not bind. -/
theorem handleWheel_spec (domainMin xRel s : ℚ) (p : Int) (zoomOut : Bool)
    (h30 : 30 ≤ p) (h300 : p ≤ 300) :
    (nextScale p zoomOut = p → handleWheel domainMin xRel s p zoomOut = none) ∧
    (nextScale p zoomOut ≠ p →
      handleWheel domainMin xRel s p zoomOut =
        some (nextScale p zoomOut,
          max 0 (anchorPixel domainMin (xRel + s) p (nextScale p zoomOut) - xRel)) ∧
      30 ≤ nextScale p zoomOut ∧ nextScale p zoomOut ≤ 300 ∧
      (0 ≤ anchorPixel domainMin (xRel + s) p (nextScale p zoomOut) - xRel →
        anchorPixel domainMin (xRel + s) p (nextScale p zoomOut) -
          max 0 (anchorPixel domainMin (xRel + s) p (nextScale p zoomOut) - xRel) = xRel)) := by
  have hpz : p ≠ 0 := by omega
  have hpq : (p : ℚ) ≠ 0 := Int.cast_ne_zero.mpr hpz
  constructor
  · intro hnp
    unfold handleWheel
    simp only [if_neg hpz]
    rw [show clampScale (jsRound ((p : ℚ) * wheelFactor zoomOut)) = nextScale p zoomOut from rfl]
    rw [if_pos hnp]
  · intro hnp
    refine ⟨?_, ?_, ?_, ?_⟩
    · unfold handleWheel
      simp only [if_neg hpz]
      rw [show clampScale (jsRound ((p : ℚ) * wheelFactor zoomOut)) = nextScale p zoomOut from rfl]
      rw [if_neg hnp]
      have harith :
          (domainMin + (xRel + s) / ((p : ℚ) / 3600000) - domainMin) *
              ((nextScale p zoomOut : ℚ) / 3600000)
            = anchorPixel domainMin (xRel + s) p (nextScale p zoomOut) - xRel + xRel := by
        unfold anchorPixel timeToPixel pixelToTime
        field_simp
        ring
      rw [harith]
      ring_nf
    · show 30 ≤ max 30 (min 300 (jsRound ((p : ℚ) * wheelFactor zoomOut)))
      exact le_max_left _ _
    · show max 30 (min 300 (jsRound ((p : ℚ) * wheelFactor zoomOut))) ≤ 300
      have : min 300 (jsRound ((p : ℚ) * wheelFactor zoomOut)) ≤ 300 := min_le_left _ _
      omega
    · intro hge
      rw [max_eq_right hge]
      ring

/-- Concrete instantiation of the C3 zoom-step specification at scale
110 zooming in (new scale 121). -/
theorem handleWheel_spec_witness :
    ((30:Int) ≤ 110 ∧ (110:Int) ≤ 300) ∧
    ((nextScale 110 false = 110 → handleWheel 0 5 10 110 false = none) ∧
     (nextScale 110 false ≠ 110 →
       handleWheel 0 5 10 110 false =
         some (nextScale 110 false,
           max 0 (anchorPixel 0 ((5:ℚ) + 10) 110 (nextScale 110 false) - 5)) ∧
       30 ≤ nextScale 110 false ∧ nextScale 110 false ≤ 300 ∧
       (0 ≤ anchorPixel 0 ((5:ℚ) + 10) 110 (nextScale 110 false) - 5 →
         anchorPixel 0 ((5:ℚ) + 10) 110 (nextScale 110 false) -
           max 0 (anchorPixel 0 ((5:ℚ) + 10) 110 (nextScale 110 false) - 5) = 5))) :=
  ⟨by norm_num, handleWheel_spec 0 5 10 110 false (by norm_num) (by norm_num)⟩

theorem foldl_min_int (a : Int) (l : List Int) :
    l.foldl min a = (l.min?).elim a (min a) := by
  induction l generalizing a with
  | nil => simp
  | cons x xs ih =>
    cases hm : xs.min? with
    | none => simp [List.min?_cons, List.foldl_cons, ih, hm]
    | some m => simp [List.min?_cons, List.foldl_cons, ih, hm, min_assoc]

theorem foldl_max_int (a : Int) (l : List Int) :
    l.foldl max a = (l.max?).elim a (max a) := by
  induction l generalizing a with
  | nil => simp
  | cons x xs ih =>
    cases hm : xs.max? with
    | none => simp [List.max?_cons, List.foldl_cons, ih, hm]
    | some m => simp [List.max?_cons, List.foldl_cons, ih, hm, max_assoc]

theorem foldl_min_start (t0 : Task) (rest : List Task) :
    rest.foldl (fun m t => min m t.start) t0.start
      = ((rest.map Task.start).min?).elim t0.start (min t0.start) := by
  have h := foldl_min_int t0.start (rest.map Task.start)
  rwa [List.foldl_map] at h

theorem foldl_max_end (t0 : Task) (rest : List Task) :
    rest.foldl (fun m t => max m t.«end») t0.«end»
      = ((rest.map Task.«end»).max?).elim t0.«end» (max t0.«end») := by
  have h := foldl_max_int t0.«end» (rest.map Task.«end»)
  rwa [List.foldl_map] at h

/-- C4 amended: the computed axis domain is exactly the spec-level
description with the effective set being the visible tasks when any
exist and otherwise all tasks: minimum start and maximum end over that
set, expanded by the explicit window bounds, padded one hour each side;
the now-based default (adjusted by the bounds, unpadded) applies only
when the effective set itself is empty. -/
theorem computedMinMax_eq_domainSpec (filtered allTasks : List Task)
    (timeFrom timeTo : Option Int) (now : Int) :
    computedMinMax filtered allTasks timeFrom timeTo now
      = domainSpec filtered allTasks timeFrom timeTo now := by
  unfold computedMinMax domainSpec
  cases hsrc : (if filtered ≠ [] then filtered else allTasks) with
  | nil =>
    cases timeFrom <;> cases timeTo <;> simp
  | cons t0 rest =>
    cases timeFrom <;> cases timeTo <;>
      simp [addMargin, foldl_min_start, foldl_max_end]

/-- C4 counterexample: with an empty visible set but a non-empty task
list and an explicit lower window bound, the computed domain comes from
the task list (expanded and padded), not from the now-based default
adjusted by the window bounds as the claim predicts. -/
theorem computedMinMax_counterexample :
    computedMinMax [] [⟨"a", "M", 0, 3600000, none⟩] (some 7200000) none 1000000000000
        = (-3600000, 7200000) ∧
    computedMinMax [] [⟨"a", "M", 0, 3600000, none⟩] (some 7200000) none 1000000000000
        ≠ (7200000, 1000000000000 + 12 * 3600000) := by
  constructor
  · decide
  · decide

/-- C5: a task passes the window filter exactly when every set lower
bound lies strictly below its end and every set upper bound lies
strictly above its start — so a task ending exactly at the lower bound
or starting exactly at the upper bound is excluded, one strictly
spanning a bound is included, and an unset bound imposes no constraint;
and every task in the composed view passes the window filter. -/
theorem intersects_spec (t : Task) (timeFrom timeTo : Option Int) :
    (intersects timeFrom timeTo t = true ↔
      ((∀ f ∈ timeFrom, f < t.«end») ∧ (∀ b ∈ timeTo, t.start < b))) ∧
    (∀ (allTasks : List Task) (query : String) (selectedMachines : List String),
      t ∈ filteredView allTasks query selectedMachines timeFrom timeTo →
        intersects timeFrom timeTo t = true) := by
  constructor
  · unfold intersects
    cases timeFrom <;> cases timeTo <;> simp
  · intro allTasks query selectedMachines hmem
    unfold filteredView at hmem
    exact (List.mem_filter.mp hmem).2

/-- Concrete instantiation of the C5 window characterisation, together
with the boundary case: a task ending exactly at the lower window bound
is rejected by the filter. -/
theorem intersects_spec_witness :
    ((intersects (some 10) none ⟨"x", "M", 5, 10, none⟩ = true ↔
      ((∀ f ∈ (some (10:Int)), f < (10:Int)) ∧ (∀ b ∈ (none : Option Int), (5:Int) < b))) ∧
    (∀ (allTasks : List Task) (query : String) (selectedMachines : List String),
      (⟨"x", "M", 5, 10, none⟩ : Task) ∈ filteredView allTasks query selectedMachines (some 10) none →
        intersects (some 10) none ⟨"x", "M", 5, 10, none⟩ = true)) ∧
    intersects (some 10) none ⟨"x", "M", 5, 10, none⟩ = false :=
  ⟨intersects_spec ⟨"x", "M", 5, 10, none⟩ (some 10) none, by decide⟩

/-- C6: with a non-empty trimmed query, the route is a permutation of
the exact case-insensitive identifier matches whenever any exist, and
only otherwise a permutation of the case-insensitive substring matches;
in both cases it is sorted ascending by start. -/
theorem routeTasks_spec (allTasks : List Task) (query : String)
    (hq : jsTrim query ≠ []) :
    let q := jsTrim query
    let exactMatches := allTasks.filter (fun t => decide (jsLower t.id = q.map Char.toLower))
    let partMatches := allTasks.filter (fun t => decide (q.map Char.toLower <:+: jsLower t.id))
    (exactMatches ≠ [] → (routeTasks allTasks query).Perm exactMatches) ∧
    (exactMatches = [] → (routeTasks allTasks query).Perm partMatches) ∧
    (routeTasks allTasks query).Pairwise (fun a b => a.start ≤ b.start) := by
  intro q exactMatches partMatches
  have hroute : routeTasks allTasks query =
      if exactMatches ≠ [] then sortByStart exactMatches else sortByStart partMatches := by
    unfold routeTasks
    rw [if_neg hq]
  by_cases he : exactMatches ≠ []
  · rw [hroute, if_pos he]
    exact ⟨fun _ => List.perm_insertionSort _ _, fun h => absurd h he, sortByStart_sorted _⟩
  · rw [hroute, if_neg he]
    refine ⟨fun h => absurd h he, fun _ => List.perm_insertionSort _ _, sortByStart_sorted _⟩

/-- Concrete instantiation of the C6 route precedence: identifiers
"100" and "1001" with query "100" give a route holding only the "100"
task. -/
theorem routeTasks_spec_witness :
    jsTrim "100" ≠ [] ∧
    (let q := jsTrim "100"
     let exactMatches := [(⟨"100", "A", 0, 10, none⟩ : Task), ⟨"1001", "B", 5, 20, none⟩].filter
       (fun t => decide (jsLower t.id = q.map Char.toLower))
     let partMatches := [(⟨"100", "A", 0, 10, none⟩ : Task), ⟨"1001", "B", 5, 20, none⟩].filter
       (fun t => decide (q.map Char.toLower <:+: jsLower t.id))
     (exactMatches ≠ [] →
       (routeTasks [⟨"100", "A", 0, 10, none⟩, ⟨"1001", "B", 5, 20, none⟩] "100").Perm exactMatches) ∧
     (exactMatches = [] →
       (routeTasks [⟨"100", "A", 0, 10, none⟩, ⟨"1001", "B", 5, 20, none⟩] "100").Perm partMatches) ∧
     (routeTasks [⟨"100", "A", 0, 10, none⟩, ⟨"1001", "B", 5, 20, none⟩] "100").Pairwise
       (fun a b => a.start ≤ b.start)) ∧
    routeTasks [⟨"100", "A", 0, 10, none⟩, ⟨"1001", "B", 5, 20, none⟩] "100"
      = [⟨"100", "A", 0, 10, none⟩] :=
  ⟨by decide,
   routeTasks_spec [⟨"100", "A", 0, 10, none⟩, ⟨"1001", "B", 5, 20, none⟩] "100" (by decide),
   by decide⟩

/-- C7 counterexample: a bar exactly 220 px wide (a two-hour task at
110 px/h) gets height 32, not the 40 the claim asserts for widths of at
least 220 px. -/
theorem barHeight_at_220 :
    barWidth (110 / 3600000) ⟨"a", "M", 0, 7200000, none⟩ = 220 ∧
    barHeight (barWidth (110 / 3600000) ⟨"a", "M", 0, 7200000, none⟩) = 32 ∧
    barHeight (barWidth (110 / 3600000) ⟨"a", "M", 0, 7200000, none⟩) ≠ 40 := by
  have hw : barWidth (110 / 3600000) ⟨"a", "M", 0, 7200000, none⟩ = 220 := by
    unfold barWidth
    push_cast
    norm_num
  refine ⟨hw, ?_, ?_⟩ <;> rw [hw] <;> unfold barHeight <;> norm_num

/-- C7 amended: the bar height thresholds are strict: width > 220 px
gives 40, width in (120, 220] gives 32, width ≤ 120 px gives the 26 px
baseline (so exactly 220 px is 32 tall and exactly 120 px is 26
tall). -/
theorem barHeight_spec (pxPerMs : ℚ) (t : Task) :
    (220 < barWidth pxPerMs t → barHeight (barWidth pxPerMs t) = 40) ∧
    (120 < barWidth pxPerMs t → barWidth pxPerMs t ≤ 220 →
      barHeight (barWidth pxPerMs t) = 32) ∧
    (barWidth pxPerMs t ≤ 120 → barHeight (barWidth pxPerMs t) = 26) := by
  unfold barHeight
  refine ⟨fun h => ?_, fun h1 h2 => ?_, fun h => ?_⟩
  · rw [if_pos h]
  · rw [if_neg (not_lt.mpr h2), if_pos h1]
  · rw [if_neg (not_lt.mpr (by linarith)), if_neg (not_lt.mpr h)]

/-- Concrete instantiation of the C7 height rule: a three-hour task at
110 px/h is 330 px wide and 40 px tall. -/
theorem barHeight_spec_witness :
    (220 : ℚ) < barWidth (110 / 3600000) ⟨"b", "M", 0, 10800000, none⟩ ∧
    barHeight (barWidth (110 / 3600000) ⟨"b", "M", 0, 10800000, none⟩) = 40 := by
  have h : (220 : ℚ) < barWidth (110 / 3600000) ⟨"b", "M", 0, 10800000, none⟩ := by
    unfold barWidth
    push_cast
    norm_num
  exact ⟨h, (barHeight_spec (110 / 3600000) ⟨"b", "M", 0, 10800000, none⟩).1 h⟩

/-- C8: numeric date values below 10,000,000,000 are interpreted as
epoch seconds and scaled to milliseconds, larger values pass through as
milliseconds; in particular 1700000000 and 1700000000000 resolve to the
same instant. -/
theorem toDateNum_spec (v : Int) :
    (v < 10000000000 → toDateNum v = v * 1000) ∧
    (10000000000 ≤ v → toDateNum v = v) ∧
    toDateNum 1700000000 = 1700000000000 ∧
    toDateNum 1700000000000 = 1700000000000 := by
  refine ⟨fun h => ?_, fun h => ?_, by decide, by decide⟩
  · unfold toDateNum
    rw [if_pos h]
  · unfold toDateNum
    rw [if_neg (not_lt.mpr h)]

/-- Concrete instantiation of the C8 threshold rule at the
seconds-range value. -/
theorem toDateNum_spec_witness :
    (1700000000 : Int) < 10000000000 ∧ toDateNum 1700000000 = 1700000000 * 1000 :=
  ⟨by decide, (toDateNum_spec 1700000000).1 (by decide)⟩

/-- C2: on the string "10.01.2025 08:00" the generic engine parse wins
and reads the date month-first, so `toDate` yields 1 October 2025,
08:00 local — not the 10 January 2025 reading the spec states. -/
theorem toDateStr_demo_string :
    toDateStr "10.01.2025 08:00" = some ⟨2025, 10, 1, 8, 0⟩ ∧
    toDateStr "10.01.2025 08:00" ≠ some ⟨2025, 1, 10, 8, 0⟩ := by
  constructor
  · decide
  · decide

/-- Supporting fact for C2: the explicit date-fns format list alone
(the intended fallback) reads the same string day-first as 10 January
2025, 08:00. -/
theorem tryFmts_demo_string :
    tryFmts fmts "10.01.2025 08:00" = some ⟨2025, 1, 10, 8, 0⟩ := by
  decide

end Gantt
